import Mathlib

/-!
Verification of the answer-scoring core (`normalizeText` and `scoreAnswer`)
of `src/src/app/InterviewSimulator.tsx`.

The JavaScript number arithmetic of the scoring formula is modelled by exact
rational arithmetic (`ℚ`): every operand reaching the formula is a small
integer or a quotient of small integers, and the formula is a fixed
composition of `+`, `-`, `*`, `/`, `min`, `max` and `Math.round`.
Strings are modelled as their character lists; `toLowerCase` is modelled
character-wise (faithful on ASCII), the regex class `\w` is the ASCII class
`[A-Za-z0-9_]` (the regex has no `u` flag) and `\s` is the JavaScript
whitespace class.
-/

/-- Character class of the regex `\w` (no `u` flag): ASCII letters, ASCII
digits and the underscore. -/
def jsIsWordChar (c : Char) : Bool :=
  c.isAlphanum || c = '_'

/-- Character class of the regex `\s`: the JavaScript whitespace characters
(tab, line feed, vertical tab, form feed, carriage return, space, and the
Unicode space separators recognised by JavaScript). -/
def jsIsSpace (c : Char) : Bool :=
  decide (c.toNat ∈ [0x9, 0xA, 0xB, 0xC, 0xD, 0x20, 0xA0, 0x1680,
      0x2028, 0x2029, 0x202F, 0x205F, 0x3000, 0xFEFF]
    ∨ (0x2000 ≤ c.toNat ∧ c.toNat ≤ 0x200A))

/-- Embedding of `normalizeText`:
`s.toLowerCase().replace(/[^\w\s]/g, '')` — lower-case the string, then
delete every character that is neither a `\w` character nor a `\s`
character. -/
def normalizeText (s : String) : String :=
  ⟨(s.data.map Char.toLower).filter (fun c => jsIsWordChar c || jsIsSpace c)⟩

/-- Embedding of `text.includes(pat)`: scan the text left to right and
report whether the pattern starts at some position (so the empty pattern is
always found, also in the empty text). -/
def jsIncludes : List Char → List Char → Bool
  | [], pat => pat.isEmpty
  | c :: cs, pat => pat.isPrefixOf (c :: cs) || jsIncludes cs pat

/-- Embedding of `text.split(/\s+/).filter(Boolean)`: split on whitespace
and drop the empty tokens, leaving the maximal runs of non-whitespace
characters. -/
def splitWords (l : List Char) : List (List Char) :=
  (l.splitOnP jsIsSpace).filter (fun w => !w.isEmpty)

/-- The word list of a transcript: `normalizeText(transcript)` split on
whitespace with empty tokens dropped. -/
def wordsOf (transcript : String) : List (List Char) :=
  splitWords (normalizeText transcript).data

/-- The source's `wordCount`: length of the word list. -/
def wordCountOf (transcript : String) : ℕ :=
  (wordsOf transcript).length

/-- The source's `unique` (`new Set(words).size`): number of distinct words. -/
def uniqueOf (transcript : String) : ℕ :=
  (wordsOf transcript).dedup.length

/-- The source's `hits`:
`keywords.reduce((c, k) => c + (text.includes(k.toLowerCase()) ? 1 : 0), 0)` —
the number of keywords whose lower-cased form occurs as a contiguous
substring of the normalized transcript. -/
def hitsOf (transcript : String) (keywords : List String) : ℕ :=
  keywords.countP (fun k =>
    jsIncludes (normalizeText transcript).data (k.data.map Char.toLower))

/-- The source's `hitRatio`: `keywords.length ? hits / keywords.length : 0`
(`0` is falsy, so the division is guarded by the list being non-empty). -/
def hitRatioOf (transcript : String) (keywords : List String) : ℚ :=
  if keywords.length = 0 then 0
  else (hitsOf transcript keywords : ℚ) / (keywords.length : ℚ)

/-- The source's fixed filler vocabulary
`['um', 'uh', 'like', 'you know', 'so', 'actually']`. -/
def fillers : List String :=
  ["um", "uh", "like", "you know", "so", "actually"]

/-- The source's `fillerCount`:
`fillers.reduce((c, f) => c + (text.includes(f) ? 1 : 0), 0)` — each
vocabulary entry contributes at most `1`, however often it occurs. -/
def fillerCountOf (transcript : String) : ℕ :=
  fillers.countP (fun f =>
    jsIncludes (normalizeText transcript).data f.data)

/-- Embedding of `Math.round` on the values reached here: round half
toward positive infinity, `⌊q + 1/2⌋`. -/
def jsRound (q : ℚ) : ℤ :=
  ⌊q + 1 / 2⌋

/-- The score composition shared verbatim by the source and the spec's
steps 5 (before rounding and clamping): `50`, plus
`Math.min(20, hitRatio * 20)`, plus
`Math.min(15, Math.min(wordCount, 200) / 200 * 15)`, minus
`Math.min(15, fillerCount * 3)`, plus
`Math.min(10, unique / Math.max(1, wordCount) * 10)`. -/
def rawScoreWith (hr : ℚ) (wordCount unique fillerCount : ℕ) : ℚ :=
  50 + min 20 (hr * 20)
     + min 15 (min (wordCount : ℚ) 200 / 200 * 15)
     - min 15 ((fillerCount : ℚ) * 3)
     + min 10 ((unique : ℚ) / max 1 (wordCount : ℚ) * 10)

/-- The raw (unrounded, unclamped) score of a transcript. -/
def rawScoreOf (transcript : String) (keywords : List String) : ℚ :=
  rawScoreWith (hitRatioOf transcript keywords) (wordCountOf transcript)
    (uniqueOf transcript) (fillerCountOf transcript)

/-- Result record of `scoreAnswer`. -/
structure ScoreResult where
  score : ℤ
  wordCount : ℕ
  hits : ℕ
  fillerCount : ℕ
deriving Repr, DecidableEq

/-- Embedding of `scoreAnswer`: the returned record, with
`score := Math.max(0, Math.min(100, Math.round(score)))` — round first,
then clamp to `[0, 100]`. -/
def scoreAnswer (transcript : String) (keywords : List String) : ScoreResult :=
  { score := max 0 (min 100 (jsRound (rawScoreOf transcript keywords)))
    wordCount := wordCountOf transcript
    hits := hitsOf transcript keywords
    fillerCount := fillerCountOf transcript }

/-- The spec's composition law for the final score, written with the spec's
operation order in step 6: the raw composition is clamped to `[0, 100]`
first, and then rounded to the nearest integer. -/
def specScore (transcript : String) (keywords : List String) : ℤ :=
  jsRound (max 0 (min 100 (rawScoreOf transcript keywords)))

/-- Division that signals failure on a zero divisor, making the division of
the hit-ratio computation explicitly fallible. -/
def safeDiv (a b : ℚ) : Option ℚ :=
  if b = 0 then none else some (a / b)

/-- The hit-ratio computation with its division made fallible: the
`keywords.length ?` guard selects `0` without dividing; otherwise the
division is attempted and could in principle fail. -/
def hitRatioChecked (transcript : String) (keywords : List String) : Option ℚ :=
  if keywords.length = 0 then some 0
  else safeDiv (hitsOf transcript keywords : ℚ) (keywords.length : ℚ)

/-- `scoreAnswer` with the fallible hit-ratio computation threaded through:
a result of `none` would signal a failed division. -/
def scoreAnswerChecked (transcript : String) (keywords : List String) :
    Option ScoreResult :=
  (hitRatioChecked transcript keywords).map fun hr =>
    { score := max 0 (min 100 (jsRound (rawScoreWith hr (wordCountOf transcript)
        (uniqueOf transcript) (fillerCountOf transcript))))
      wordCount := wordCountOf transcript
      hits := hitsOf transcript keywords
      fillerCount := fillerCountOf transcript }

/-! Helper lemmas. -/

/-- The scanning search `jsIncludes` finds the pattern exactly when the
pattern is a contiguous sublist of the text. -/
theorem jsIncludes_iff (text pat : List Char) :
    jsIncludes text pat = true ↔ pat <:+: text := by
  induction text with
  | nil => simp [jsIncludes, List.isEmpty_iff, List.infix_nil]
  | cons c cs ih =>
    simp [jsIncludes, List.isPrefixOf_iff_prefix, ih, List.infix_cons_iff]

/-- Pointwise Bool form of `jsIncludes_iff`. -/
theorem jsIncludes_eq_decide (text pat : List Char) :
    jsIncludes text pat = decide (pat <:+: text) := by
  rw [Bool.eq_iff_iff, decide_eq_true_eq]
  exact jsIncludes_iff text pat

/-- The hit ratio is never negative. -/
theorem hitRatioOf_nonneg (t : String) (ks : List String) :
    0 ≤ hitRatioOf t ks := by
  rw [hitRatioOf]
  split
  · exact le_refl 0
  · positivity

/-- The raw score composition lies in `[35, 95]` whenever the hit ratio is
non-negative: the three bonuses contribute `[0, 20]`, `[0, 15]` and
`[0, 10]`, the filler penalty `[0, 15]`. -/
theorem rawScoreWith_bounds (hr : ℚ) (w u f : ℕ) (hhr : 0 ≤ hr) :
    35 ≤ rawScoreWith hr w u f ∧ rawScoreWith hr w u f ≤ 95 := by
  have ha0 : (0 : ℚ) ≤ min 20 (hr * 20) :=
    le_min (by norm_num) (mul_nonneg hhr (by norm_num))
  have ha1 : min 20 (hr * 20) ≤ 20 := min_le_left _ _
  have hw0 : (0 : ℚ) ≤ min (w : ℚ) 200 := le_min (by positivity) (by norm_num)
  have hb0 : (0 : ℚ) ≤ min 15 (min (w : ℚ) 200 / 200 * 15) :=
    le_min (by norm_num) (mul_nonneg (div_nonneg hw0 (by norm_num)) (by norm_num))
  have hb1 : min 15 (min (w : ℚ) 200 / 200 * 15) ≤ 15 := min_le_left _ _
  have hc0 : (0 : ℚ) ≤ min 15 ((f : ℚ) * 3) :=
    le_min (by norm_num) (by positivity)
  have hc1 : min 15 ((f : ℚ) * 3) ≤ 15 := min_le_left _ _
  have hm0 : (0 : ℚ) < max 1 (w : ℚ) := lt_of_lt_of_le one_pos (le_max_left _ _)
  have hd0 : (0 : ℚ) ≤ min 10 ((u : ℚ) / max 1 (w : ℚ) * 10) :=
    le_min (by norm_num)
      (mul_nonneg (div_nonneg (by positivity) hm0.le) (by norm_num))
  have hd1 : min 10 ((u : ℚ) / max 1 (w : ℚ) * 10) ≤ 10 := min_le_left _ _
  rw [rawScoreWith]
  constructor <;> linarith

/-- The raw score of every transcript lies in `[35, 95]`. -/
theorem rawScoreOf_bounds (t : String) (ks : List String) :
    35 ≤ rawScoreOf t ks ∧ rawScoreOf t ks ≤ 95 :=
  rawScoreWith_bounds _ _ _ _ (hitRatioOf_nonneg t ks)

/-- Lower bound for the rounding of a rational. -/
theorem le_jsRound_int (z : ℤ) (q : ℚ) (h : (z : ℚ) ≤ q) : z ≤ jsRound q :=
  Int.le_floor.2 (by linarith)

/-- Upper bound for the rounding of a rational. -/
theorem jsRound_le_int (z : ℤ) (q : ℚ) (h : q ≤ (z : ℚ)) : jsRound q ≤ z := by
  have hlt : jsRound q < z + 1 := Int.floor_lt.2 (by push_cast; linarith)
  omega

/-- Evaluation of `jsRound` on a whole rational. -/
theorem jsRound_intCast (z : ℤ) : jsRound (z : ℚ) = z :=
  le_antisymm (jsRound_le_int z _ (le_refl _)) (le_jsRound_int z _ (le_refl _))

/-! Claim theorems. -/

/-- C1: for every transcript and keyword list, the score returned by
`scoreAnswer` equals the spec's composition law — base 50 plus the capped
bonuses minus the capped filler penalty, clamped to `[0, 100]` and rounded
to the nearest integer. (The source rounds before clamping and the spec
clamps before rounding; the two coincide because the raw composition always
lies in `[35, 95]`.) -/
theorem scoreAnswer_score_eq_specScore (t : String) (ks : List String) :
    (scoreAnswer t ks).score = specScore t ks := by
  obtain ⟨h35, h95⟩ := rawScoreOf_bounds t ks
  have hr35 : (35 : ℤ) ≤ jsRound (rawScoreOf t ks) :=
    le_jsRound_int 35 _ (by push_cast; linarith)
  have hr95 : jsRound (rawScoreOf t ks) ≤ 95 :=
    jsRound_le_int 95 _ (by push_cast; linarith)
  simp only [scoreAnswer, specScore]
  rw [min_eq_right (by linarith : jsRound (rawScoreOf t ks) ≤ 100),
    max_eq_right (by linarith : (0 : ℤ) ≤ jsRound (rawScoreOf t ks)),
    min_eq_right (by linarith : rawScoreOf t ks ≤ 100),
    max_eq_right (by linarith : (0 : ℚ) ≤ rawScoreOf t ks)]

/-- C2: for every transcript and keyword list, the returned record
satisfies the ScoreResult invariants: the score is an integer in
`[0, 100]` and the keyword hit count is at most the number of keywords
(word count and filler count are non-negative by their `ℕ` type). -/
theorem scoreAnswer_range_invariants (t : String) (ks : List String) :
    0 ≤ (scoreAnswer t ks).score ∧ (scoreAnswer t ks).score ≤ 100 ∧
      (scoreAnswer t ks).hits ≤ ks.length := by
  refine ⟨le_max_left _ _, max_le (by norm_num) (min_le_left _ _), ?_⟩
  simp only [scoreAnswer, hitsOf]
  exact List.countP_le_length _

/-- C3 counterexample: with the empty transcript and the keyword list
containing one empty keyword, `scoreAnswer` returns `hits = 1` and
`score = 70` (not `hits = 0` and `score = 50` as claimed for every keyword
list): the empty keyword is a substring of the empty normalized
transcript. -/
theorem scoreAnswer_empty_empty_keyword_cex :
    (scoreAnswer "" [""]).hits = 1 ∧ (scoreAnswer "" [""]).score = 70 := by
  have h1 : hitsOf "" [""] = 1 := by decide
  have h2 : wordCountOf "" = 0 := by decide
  have h3 : uniqueOf "" = 0 := by decide
  have h4 : fillerCountOf "" = 0 := by decide
  have h5 : hitRatioOf "" [""] = 1 := by simp [hitRatioOf, h1]
  have h6 : rawScoreOf "" [""] = 70 := by
    rw [rawScoreOf, h5, h2, h3, h4, rawScoreWith]
    norm_num [min_def, max_def]
  refine ⟨h1, ?_⟩
  simp only [scoreAnswer, h6]
  rw [show ((70 : ℚ) = ((70 : ℤ) : ℚ)) from by norm_num, jsRound_intCast]
  norm_num [min_def, max_def]

/-- C3 amended: for the empty transcript and every keyword list whose
entries are all non-empty strings, `scoreAnswer` returns `score = 50`,
`wordCount = 0`, `hits = 0` and `fillerCount = 0`. -/
theorem scoreAnswer_empty_transcript (ks : List String) (h : ∀ k ∈ ks, k ≠ "") :
    scoreAnswer "" ks = ⟨50, 0, 0, 0⟩ := by
  have hhits : hitsOf "" ks = 0 := by
    rw [hitsOf, List.countP_eq_zero]
    intro k hk
    simp only [jsIncludes, List.isEmpty_iff, List.map_eq_nil_iff]
    intro hd
    exact h k hk (by cases k with | _ d => cases hd; rfl)
  have hr : hitRatioOf "" ks = 0 := by
    rw [hitRatioOf, hhits]
    split <;> simp
  have hw : wordCountOf "" = 0 := by decide
  have hu : uniqueOf "" = 0 := by decide
  have hf : fillerCountOf "" = 0 := by decide
  have hraw : rawScoreOf "" ks = 50 := by
    rw [rawScoreOf, hr, hw, hu, hf, rawScoreWith]
    norm_num [min_def, max_def]
  simp only [scoreAnswer, hraw, hhits, hw, hf]
  rw [show ((50 : ℚ) = ((50 : ℤ) : ℚ)) from by norm_num, jsRound_intCast]
  norm_num [min_def, max_def]

/-- Witness for C3 amended at a concrete non-empty keyword list. -/
theorem scoreAnswer_empty_transcript_witness :
    (∀ k ∈ ["React"], k ≠ "") ∧ scoreAnswer "" ["React"] = ⟨50, 0, 0, 0⟩ :=
  ⟨by decide, scoreAnswer_empty_transcript ["React"] (by decide)⟩

/-- C4 counterexample: the underscore is neither alphanumeric nor
whitespace, yet `normalizeText` keeps it (the regex class `\w` contains
`_`), so the normalization does not remove exactly the characters that are
not alphanumeric and not whitespace. -/
theorem normalizeText_underscore_cex :
    normalizeText "_" = "_" ∧
      ('_'.isAlphanum || '_'.isWhitespace || jsIsSpace '_') = false := by
  decide

/-- C4 amended: `normalizeText` lower-cases its input and removes exactly
the characters that are not alphanumeric, not the underscore, and not
whitespace; consequently every character of the normalized transcript is
alphanumeric, an underscore, or whitespace. -/
theorem normalizeText_keeps_word_or_space (s : String) (c : Char)
    (h : c ∈ (normalizeText s).data) :
    (normalizeText s).data =
      (s.data.map Char.toLower).filter (fun c => c.isAlphanum || c = '_' || jsIsSpace c)
    ∧ (c.isAlphanum || c = '_' || jsIsSpace c) = true := by
  have heq : (normalizeText s).data =
      (s.data.map Char.toLower).filter (fun c => c.isAlphanum || c = '_' || jsIsSpace c) := by
    simp only [normalizeText, jsIsWordChar, Bool.or_assoc]
  refine ⟨heq, ?_⟩
  rw [heq] at h
  simpa using List.of_mem_filter h

/-- Witness for C4 amended at a concrete transcript and character. -/
theorem normalizeText_keeps_word_or_space_witness :
    'a' ∈ (normalizeText "a_ B!").data ∧
      ((normalizeText "a_ B!").data =
        ("a_ B!".data.map Char.toLower).filter
          (fun c => c.isAlphanum || c = '_' || jsIsSpace c)
      ∧ ('a'.isAlphanum || 'a' = '_' || jsIsSpace 'a') = true) :=
  ⟨by decide, normalizeText_keeps_word_or_space "a_ B!" 'a' (by decide)⟩

/-- C5: the keyword hit count equals the number of keyword entries whose
lower-cased form occurs as a contiguous substring of the normalized
transcript (substring containment, not token matching); in particular the
keyword "React" is a hit for the transcript "I used reactjs extensively". -/
theorem hits_eq_substring_count :
    (∀ (t : String) (ks : List String), (scoreAnswer t ks).hits =
      (ks.filter (fun k =>
        decide ((k.data.map Char.toLower) <:+: (normalizeText t).data))).length)
    ∧ (scoreAnswer "I used reactjs extensively" ["React"]).hits = 1 := by
  refine ⟨fun t ks => ?_, by decide⟩
  simp only [scoreAnswer, hitsOf, jsIncludes_eq_decide, List.countP_eq_length_filter]

/-- C6: the scorer is total and never signals failure: the explicitly
fallible version, in which an unguarded division by zero would return
`none`, returns `some` of the `scoreAnswer` result on every transcript and
every keyword list, because the empty keyword list takes the `0` branch
without dividing. -/
theorem scoreAnswerChecked_eq_some (t : String) (ks : List String) :
    scoreAnswerChecked t ks = some (scoreAnswer t ks) := by
  by_cases h : ks.length = 0
  · simp [scoreAnswerChecked, hitRatioChecked, h, scoreAnswer, rawScoreOf, hitRatioOf]
  · have hne : ((ks.length : ℚ)) ≠ 0 := Nat.cast_ne_zero.2 h
    simp [scoreAnswerChecked, hitRatioChecked, h, safeDiv, hne, scoreAnswer,
      rawScoreOf, hitRatioOf]

/-- C7: the filler count equals the number of entries of the fixed filler
vocabulary that occur as substrings of the normalized transcript, each
entry counted at most once (so the count never exceeds 6); in particular
the transcript "um so I like this" yields `fillerCount = 3`. -/
theorem fillerCount_eq_vocab_substring_count :
    (∀ (t : String) (ks : List String),
      (scoreAnswer t ks).fillerCount =
        (fillers.filter (fun f =>
          decide (f.data <:+: (normalizeText t).data))).length
      ∧ (scoreAnswer t ks).fillerCount ≤ 6)
    ∧ (scoreAnswer "um so I like this" []).fillerCount = 3 := by
  refine ⟨fun t ks => ⟨?_, ?_⟩, by decide⟩
  · simp only [scoreAnswer, fillerCountOf, jsIncludes_eq_decide,
      List.countP_eq_length_filter]
  · simp only [scoreAnswer, fillerCountOf]
    exact List.countP_le_length _

/-- C8: for the transcript "I implemented authentication using refresh
tokens and secure storage." and the keywords
`["refresh", "token", "secure", "storage", ".NET"]`, `scoreAnswer` returns
`hits = 4` (".NET" is not matched, its dot having been stripped from the
transcript) and `wordCount = 9`. -/
theorem scoreAnswer_example_hits_and_wordCount :
    (scoreAnswer "I implemented authentication using refresh tokens and secure storage."
      ["refresh", "token", "secure", "storage", ".NET"]).hits = 4 ∧
    (scoreAnswer "I implemented authentication using refresh tokens and secure storage."
      ["refresh", "token", "secure", "storage", ".NET"]).wordCount = 9 := by
  decide

/-- C9: monotonicity in keyword hits: for two scorer inputs with the same
word count, distinct-word count, filler count and keyword-list length,
where the second yields at least as many keyword hits, the second score is
at least the first. -/
theorem score_mono_in_hits (t₁ : String) (ks₁ : List String)
    (t₂ : String) (ks₂ : List String)
    (hw : wordCountOf t₁ = wordCountOf t₂)
    (hu : uniqueOf t₁ = uniqueOf t₂)
    (hf : fillerCountOf t₁ = fillerCountOf t₂)
    (hk : ks₁.length = ks₂.length)
    (hh : hitsOf t₁ ks₁ ≤ hitsOf t₂ ks₂) :
    (scoreAnswer t₁ ks₁).score ≤ (scoreAnswer t₂ ks₂).score := by
  have hhr : hitRatioOf t₁ ks₁ ≤ hitRatioOf t₂ ks₂ := by
    rw [hitRatioOf, hitRatioOf, hk]
    split
    · exact le_refl 0
    · next h =>
      have hpos : (0 : ℚ) < (ks₂.length : ℚ) :=
        Nat.cast_pos.2 (Nat.pos_of_ne_zero h)
      exact (div_le_div_iff_of_pos_right hpos).2 (by exact_mod_cast hh)
  have hraw : rawScoreOf t₁ ks₁ ≤ rawScoreOf t₂ ks₂ := by
    rw [rawScoreOf, rawScoreOf, rawScoreWith, rawScoreWith, hw, hu, hf]
    have hmin : min 20 (hitRatioOf t₁ ks₁ * 20) ≤ min 20 (hitRatioOf t₂ ks₂ * 20) :=
      min_le_min le_rfl (mul_le_mul_of_nonneg_right hhr (by norm_num))
    linarith
  simp only [scoreAnswer, jsRound]
  exact max_le_max le_rfl (min_le_min le_rfl (Int.floor_le_floor (by linarith)))

/-- Witness for C9 at concrete inputs: the same transcript scored against a
missing keyword and against a present keyword. -/
theorem score_mono_in_hits_witness :
    (wordCountOf "alpha" = wordCountOf "alpha" ∧ uniqueOf "alpha" = uniqueOf "alpha" ∧
      fillerCountOf "alpha" = fillerCountOf "alpha" ∧
      (["zzz"] : List String).length = (["alpha"] : List String).length ∧
      hitsOf "alpha" ["zzz"] ≤ hitsOf "alpha" ["alpha"]) ∧
    (scoreAnswer "alpha" ["zzz"]).score ≤ (scoreAnswer "alpha" ["alpha"]).score :=
  ⟨⟨rfl, rfl, rfl, by decide, by decide⟩,
    score_mono_in_hits "alpha" ["zzz"] "alpha" ["alpha"] rfl rfl rfl
      (by decide) (by decide)⟩

/-- C10: the raw score always lies in `[35, 95]`, so the clamp to
`[0, 100]` is never binding: the returned score equals the rounded raw
score and itself lies in `[35, 95]`. -/
theorem rawScore_in_range_clamp_trivial (t : String) (ks : List String) :
    (35 ≤ rawScoreOf t ks ∧ rawScoreOf t ks ≤ 95) ∧
    (scoreAnswer t ks).score = jsRound (rawScoreOf t ks) ∧
    35 ≤ (scoreAnswer t ks).score ∧ (scoreAnswer t ks).score ≤ 95 := by
  obtain ⟨h35, h95⟩ := rawScoreOf_bounds t ks
  have hr35 : (35 : ℤ) ≤ jsRound (rawScoreOf t ks) :=
    le_jsRound_int 35 _ (by push_cast; linarith)
  have hr95 : jsRound (rawScoreOf t ks) ≤ 95 :=
    jsRound_le_int 95 _ (by push_cast; linarith)
  have hs : (scoreAnswer t ks).score = jsRound (rawScoreOf t ks) := by
    simp only [scoreAnswer]
    rw [min_eq_right (by linarith : jsRound (rawScoreOf t ks) ≤ 100),
      max_eq_right (by linarith : (0 : ℤ) ≤ jsRound (rawScoreOf t ks))]
  exact ⟨⟨h35, h95⟩, hs, by rw [hs]; exact hr35, by rw [hs]; exact hr95⟩
